import Mathlib

/-!
Verification development for the restricted calculator (src/kalkulator.py).

The repository is a single-file Tkinter calculator.  The parts with algorithmic
content are embedded here shallowly:

  - the safe expression evaluator safe_eval and its AST walker _eval (lines 33-71),
  - the Calculator buffer operations append / backspace / clear / negate /
    percent / evaluate and the display formatter _update_display (lines 135-217).

Modelling conventions:
  - Python str values are modelled as List Char.
  - Python int is modelled as ℤ (Python integers are arbitrary precision).
  - Python float is modelled as ℚ, the idealized exact-real semantics of the
    decimal values the calculator manipulates; binary rounding, overflow to
    infinity and NaN are not modelled.  PyVal.floatNR stands for a float whose
    value the idealization cannot track exactly (a non-integral real power,
    irrational in general); PyVal.complexNR stands for a complex number (in
    Python 3 a negative base raised to a non-integral power yields complex).
    Operations on NR values are modelled as succeeding with an NR result.
  - Python exceptions are modelled by the error kinds of the specification:
    ValueError from ast.parse -> parseError (the spec names it SyntaxError),
    the ValueError raises inside _eval -> disallowed (spec: DisallowedConstruct),
    ZeroDivisionError -> divisionByZero, TypeError (complex modulo and floor
    division) -> typeErr.  invalidOperation is the spec's InvalidOperation kind;
    the embedding shows it is never produced.
-/

set_option maxRecDepth 10000

namespace Kalkulator

/-- Error kinds reported by the pipeline, following section 7 of the spec.
parseError is the spec's SyntaxError kind (ValueError 'Sintaks salah' raised
when ast.parse fails); disallowed is DisallowedConstruct (every other
ValueError raised inside _eval); divisionByZero is ZeroDivisionError;
invalidOperation is the spec's InvalidOperation kind; typeErr models the
TypeError Python raises for modulo or floor division on complex values. -/
inductive Err
  | parseError
  | disallowed
  | divisionByZero
  | invalidOperation
  | typeErr
  deriving DecidableEq

/-- Runtime numeric values of the evaluator.  int and float carry exact values;
floatNR is a float whose exact value the idealized model does not track
(it arises only from a non-integral power of a positive base, irrational in
general); complexNR is a complex number (arising from a non-integral power of
a negative base), whose components the model does not track. -/
inductive PyVal
  | int (n : ℤ)
  | float (q : ℚ)
  | floatNR
  | complexNR
  deriving DecidableEq

/-- Binary operator node kinds of the Python ast module that can label a
BinOp node.  The first seven are the keys of ALLOWED_OPERATORS
(kalkulator.py lines 20-30); the rest are the remaining ast binary operators,
which _eval rejects. -/
inductive BinKind
  | add | sub | mult | div | mod | pow | floorDiv
  | lshift | rshift | bitOr | bitXor | bitAnd | matMult
  deriving DecidableEq

/-- Unary operator node kinds of ast.  USub and UAdd are in ALLOWED_OPERATORS;
Invert (and the boolean Not) are not. -/
inductive UnKind
  | uSub | uAdd | invert | notOp
  deriving DecidableEq

/-- Membership of a BinOp operator in ALLOWED_OPERATORS (kalkulator.py line 56). -/
def allowedBin : BinKind → Bool
  | .add | .sub | .mult | .div | .mod | .pow | .floorDiv => true
  | _ => false

/-- Membership of a UnaryOp operator in ALLOWED_OPERATORS (kalkulator.py line 63). -/
def allowedUn : UnKind → Bool
  | .uSub | .uAdd => true
  | _ => false

/-- The numeric value of an exact PyVal; 0 (junk) on the NR constructors,
which is only read under an isNumVal hypothesis. -/
def qval : PyVal → ℚ
  | .int n => (n : ℚ)
  | .float q => q
  | _ => 0

/-- True exactly on the exact numeric constructors int and float. -/
def isNumVal : PyVal → Bool
  | .int _ => true
  | .float _ => true
  | _ => false

/-- Python falsy-zero test used by the zero-divisor checks: an exact int or
float equal to zero. -/
def isZeroNum : PyVal → Bool
  | .int n => n = 0
  | .float q => q = 0
  | _ => false

/-- True on an exact negative int or float. -/
def isNegNum : PyVal → Bool
  | .int n => n < 0
  | .float q => q < 0
  | _ => false

/-- Floored remainder on ℚ: the value of Python's float modulo under the exact
idealization (CPython adjusts math.fmod so the result follows the divisor's
sign, which equals a - b * floor (a / b)). -/
def qfmod (a b : ℚ) : ℚ := a - b * ⌊a / b⌋

/-- Python addition on calculator values (operator.add): int + int stays int,
a float operand promotes to float. -/
def pyAdd : PyVal → PyVal → Except Err PyVal
  | .int a, .int b => .ok (.int (a + b))
  | .complexNR, _ | _, .complexNR => .ok .complexNR
  | .floatNR, _ | _, .floatNR => .ok .floatNR
  | a, b => .ok (.float (qval a + qval b))

/-- Python subtraction (operator.sub), same promotion rule as addition. -/
def pySub : PyVal → PyVal → Except Err PyVal
  | .int a, .int b => .ok (.int (a - b))
  | .complexNR, _ | _, .complexNR => .ok .complexNR
  | .floatNR, _ | _, .floatNR => .ok .floatNR
  | a, b => .ok (.float (qval a - qval b))

/-- Python multiplication (operator.mul), same promotion rule. -/
def pyMul : PyVal → PyVal → Except Err PyVal
  | .int a, .int b => .ok (.int (a * b))
  | .complexNR, _ | _, .complexNR => .ok .complexNR
  | .floatNR, _ | _, .floatNR => .ok .floatNR
  | a, b => .ok (.float (qval a * qval b))

/-- Python true division (operator.truediv): always float on numbers, raising
ZeroDivisionError on an exact zero divisor (also for a complex dividend). -/
def pyDiv (a b : PyVal) : Except Err PyVal :=
  if isZeroNum b then .error .divisionByZero
  else
    match a, b with
    | .complexNR, _ | _, .complexNR => .ok .complexNR
    | .floatNR, _ | _, .floatNR => .ok .floatNR
    | x, y => .ok (.float (qval x / qval y))

/-- Python modulo (operator.mod): floored remainder, int on ints, float when a
float is involved; TypeError on complex; ZeroDivisionError on a zero divisor. -/
def pyMod (a b : PyVal) : Except Err PyVal :=
  match a, b with
  | .complexNR, _ | _, .complexNR => .error .typeErr
  | .floatNR, y => if isZeroNum y then .error .divisionByZero else .ok .floatNR
  | _, .floatNR => .ok .floatNR
  | .int x, .int y => if y = 0 then .error .divisionByZero else .ok (.int (Int.fmod x y))
  | x, y => if isZeroNum y then .error .divisionByZero else .ok (.float (qfmod (qval x) (qval y)))

/-- Python floor division (operator.floordiv): quotient rounded toward negative
infinity, int on ints, float when a float is involved; TypeError on complex. -/
def pyFloorDiv (a b : PyVal) : Except Err PyVal :=
  match a, b with
  | .complexNR, _ | _, .complexNR => .error .typeErr
  | .floatNR, y => if isZeroNum y then .error .divisionByZero else .ok .floatNR
  | _, .floatNR => .ok .floatNR
  | .int x, .int y => if y = 0 then .error .divisionByZero else .ok (.int (Int.fdiv x y))
  | x, y =>
      if isZeroNum y then .error .divisionByZero
      else .ok (.float ((⌊qval x / qval y⌋ : ℤ) : ℚ))

/-- Python exponentiation on float-valued operands (CPython float_pow under the
exact idealization): 0 ** negative raises ZeroDivisionError, 0 ** 0 = 1,
0 ** positive = 0; an integral exponent gives the exact rational power; a
non-integral exponent gives a complex number for a negative base (Python 3
delegates to complex pow) and an untracked real power for a positive base. -/
def pyPowQ (qb qe : ℚ) : Except Err PyVal :=
  if qb = 0 then
    if qe < 0 then .error .divisionByZero
    else if qe = 0 then .ok (.float 1)
    else .ok (.float 0)
  else if qe.den = 1 then .ok (.float (qb ^ qe.num))
  else if qb < 0 then .ok .complexNR
  else .ok .floatNR

/-- Python exponentiation (operator.pow): int ** non-negative int stays int;
int ** negative int is float (ZeroDivisionError for base 0); any float operand
uses the float semantics of pyPowQ. -/
def pyPow (a b : PyVal) : Except Err PyVal :=
  match a, b with
  | .int x, .int y =>
      if 0 ≤ y then .ok (.int (x ^ y.toNat))
      else if x = 0 then .error .divisionByZero
      else .ok (.float ((x : ℚ) ^ y))
  | .complexNR, _ | _, .complexNR => .ok .complexNR
  | .floatNR, _ | _, .floatNR => .ok .floatNR
  | x, y => pyPowQ (qval x) (qval y)

/-- Python arithmetic negation (operator.neg). -/
def pyNeg : PyVal → Except Err PyVal
  | .int n => .ok (.int (-n))
  | .float q => .ok (.float (-q))
  | .floatNR => .ok .floatNR
  | .complexNR => .ok .complexNR

/-- Python unary plus (operator.pos): identity on numbers. -/
def pyPos (a : PyVal) : Except Err PyVal := .ok a

/-- Dispatch of an allowed BinOp operator to its Python function, mirroring
ALLOWED_OPERATORS[op_type](left, right) (kalkulator.py line 60).  The
disallowed kinds have no entry; _eval rejects them before application, so
their branches here are unreachable. -/
def applyBin : BinKind → PyVal → PyVal → Except Err PyVal
  | .add, a, b => pyAdd a b
  | .sub, a, b => pySub a b
  | .mult, a, b => pyMul a b
  | .div, a, b => pyDiv a b
  | .mod, a, b => pyMod a b
  | .pow, a, b => pyPow a b
  | .floorDiv, a, b => pyFloorDiv a b
  | _, _, _ => .error .disallowed

/-- Dispatch of an allowed UnaryOp operator (kalkulator.py line 66). -/
def applyUn : UnKind → PyVal → Except Err PyVal
  | .uSub, a => pyNeg a
  | .uAdd, a => pyPos a
  | _, _ => .error .disallowed

/-- Constant payloads an ast.Constant node can carry in this model: the numeric
literals the tokenizer can produce, plus string and None shapes standing for
the constant types _eval rejects with ValueError 'Tipe konstanta tidak
diizinkan'. -/
inductive PyConst
  | int (n : ℤ)
  | float (q : ℚ)
  | strLit
  | noneLit
  deriving DecidableEq

/-- The ast expression nodes relevant to safe_eval.  constant is ast.Constant
(ast.Num is its deprecated numeric alias and needs no separate shape); binOp
and unaryOp carry an operator kind and operands; name is ast.Name (an
identifier); call is ast.Call (its argument list is omitted because _eval
raises on the Call node before inspecting arguments); otherNode stands for
every other ast expression node kind (Compare, BoolOp, Tuple, Subscript, ...),
none of which _eval accepts. -/
inductive Expr
  | constant (c : PyConst)
  | binOp (op : BinKind) (l r : Expr)
  | unaryOp (op : UnKind) (x : Expr)
  | name (id : List Char)
  | call (fn : Expr)
  | otherNode

/-- The recursive AST walker _eval (kalkulator.py lines 45-69), transcribed
branch by branch: numeric constants return their value; BinOp and UnaryOp check
the operator against ALLOWED_OPERATORS before evaluating operands left to
right; Call and any other node kind raise ValueError. -/
def evalAst : Expr → Except Err PyVal
  | .constant (.int n) => .ok (.int n)
  | .constant (.float q) => .ok (.float q)
  | .constant _ => .error .disallowed
  | .binOp op l r =>
      if allowedBin op then
        match evalAst l with
        | .error e => .error e
        | .ok a =>
            match evalAst r with
            | .error e => .error e
            | .ok b => applyBin op a b
      else .error .disallowed
  | .unaryOp op x =>
      if allowedUn op then
        match evalAst x with
        | .error e => .error e
        | .ok a => applyUn op a
      else .error .disallowed
  | .call _ => .error .disallowed
  | .name _ => .error .disallowed
  | .otherNode => .error .disallowed

/-- True when a tree contains any node _eval rejects: a constant outside
int/float, an operator outside ALLOWED_OPERATORS, a Name, a Call, or any
other node kind.  This is the spec's notion of a construct not expressible
as Literal/UnaryOp/BinaryOp over the allowed operator enumeration. -/
def containsDisallowed : Expr → Bool
  | .constant (.int _) => false
  | .constant (.float _) => false
  | .constant _ => true
  | .binOp op l r => !allowedBin op || containsDisallowed l || containsDisallowed r
  | .unaryOp op x => !allowedUn op || containsDisallowed x
  | .name _ => true
  | .call _ => true
  | .otherNode => true

/-! Number-to-string and string-to-number conversions used by the calculator. -/

/-- ASCII digit test (Python str.isdigit restricted to the calculator's
character set). -/
def isDigitCh (c : Char) : Bool := c.isDigit

/-- Numeric value of an ASCII digit character. -/
def digitVal (c : Char) : ℕ := c.toNat - 48

/-- Value of a digit string read most significant first. -/
def digitsToNat (ds : List Char) : ℕ := ds.foldl (fun acc c => 10 * acc + digitVal c) 0

/-- Decimal digits of n, most significant first, without sign (helper for
Python str on int).  The fuel argument bounds the recursion; natStr supplies
fuel n, which suffices since the argument shrinks by a factor of 10. -/
def natStrAux : ℕ → ℕ → List Char
  | 0, _ => []
  | _, 0 => []
  | fuel + 1, n => natStrAux fuel (n / 10) ++ [Char.ofNat (48 + n % 10)]

/-- Python str of a non-negative integer. -/
def natStr (n : ℕ) : List Char := if n = 0 then ['0'] else natStrAux n n

/-- Python str of an int: optional minus sign followed by the decimal digits. -/
def intStr (n : ℤ) : List Char :=
  if n < 0 then '-' :: natStr n.natAbs else natStr n.toNat

/-- Least k with d dividing 10 ^ k, when one exists below the search bound
(it always does when d is the denominator of a value parsed from a decimal
literal). -/
def findPow10 (d : ℕ) : Option ℕ := (List.range (d + 1)).find? (fun k => 10 ^ k % d = 0)

/-- Left-pad a digit string with zeros to length k. -/
def padTo (k : ℕ) (ds : List Char) : List Char := List.replicate (k - ds.length) '0' ++ ds

/-- Python str of a float under the exact idealization: sign, integer part,
decimal point, and the exact fractional digits (minimal, so no trailing
zeros).  An integral value renders with a trailing .0 exactly as Python does;
the calculator collapses that case to int before rendering, so that branch is
only a totality default.  Python switches to exponent notation for magnitudes
outside roughly 1e-4..1e16, which the idealization does not replicate; no
claim depends on that range.  A denominator not of the form 2^a * 5^b cannot
arise from parsing a decimal literal; that branch is a totality default. -/
def floatStr (q : ℚ) : List Char :=
  let sign : List Char := if q < 0 then ['-'] else []
  let n := q.num.natAbs
  let d := q.den
  match findPow10 d with
  | some 0 => sign ++ natStr n ++ ['.', '0']
  | some k =>
      let scaled := n * 10 ^ k / d
      let ds := padTo (k + 1) (natStr scaled)
      sign ++ ds.take (ds.length - k) ++ ['.'] ++ ds.drop (ds.length - k)
  | none => sign ++ natStr n ++ ['/'] ++ natStr d

/-- The rendering negate and percent apply to the recomputed trailing number:
str(int(val)) if val.is_integer() else str(val) (kalkulator.py lines 174
and 191). -/
def pyNumStr (q : ℚ) : List Char := if q.den = 1 then intStr q.num else floatStr q

/-- Split a character list at the first character satisfying p: returns the
part before it and, when found, the part after it. -/
def splitFirst (p : Char → Bool) : List Char → List Char × Option (List Char)
  | [] => ([], Option.none)
  | c :: rest =>
      if p c then ([], some rest)
      else
        let r := splitFirst p rest
        (c :: r.1, r.2)

/-- Exponent marker test. -/
def isExpCh (c : Char) : Bool := c = 'e' || c = 'E'

/-- Parse the mantissa of a Python float string: digits with at most one
decimal point and at least one digit. -/
def parseMant (s : List Char) : Option ℚ :=
  let r := splitFirst (fun c => c = '.') s
  match r.2 with
  | Option.none =>
      if r.1.isEmpty then Option.none
      else if r.1.all isDigitCh then some ((digitsToNat r.1 : ℚ)) else Option.none
  | some fp =>
      if r.1.isEmpty && fp.isEmpty then Option.none
      else if r.1.all isDigitCh && fp.all isDigitCh then
        some ((digitsToNat (r.1 ++ fp) : ℚ) / 10 ^ fp.length)
      else Option.none

/-- Parse the exponent part after the marker: optional sign then at least one
digit. -/
def parseExpPart (s : List Char) : Option ℤ :=
  match s with
  | [] => Option.none
  | c :: rest =>
      let signed : ℤ × List Char :=
        if c = '+' then (1, rest) else if c = '-' then (-1, rest) else (1, s)
      if signed.2.isEmpty then Option.none
      else if signed.2.all isDigitCh then some (signed.1 * digitsToNat signed.2)
      else Option.none

/-- Python float(s) under the exact idealization, for strings over the
calculator's character set: mantissa with optional e/E exponent.  Rounding to
binary and overflow to infinity are not modelled (the idealization keeps the
exact decimal value). -/
def pyFloatOfString (s : List Char) : Option ℚ :=
  let r := splitFirst isExpCh s
  match r.2 with
  | Option.none => parseMant r.1
  | some ep =>
      match parseMant r.1, parseExpPart ep with
      | some m, some ex => some (m * (10 : ℚ) ^ ex)
      | _, _ => Option.none

/-! Tokenizer and parser modelling ast.parse(expr, mode=eval) restricted to the
grammar fragment the calculator can reach: numeric literals, identifiers,
the operators + - * / % ** //, parentheses, and call syntax.  Inputs outside
this fragment (string or imaginary literals, keywords, hex numbers, ...)
cannot be typed through the calculator UI and are not modelled; the model
rejects them as parseError where Python may classify a few differently. -/

/-- Tokens of the normalized expression string. -/
inductive Tok
  | num (c : PyConst)
  | ident (s : List Char)
  | plusT | minusT | starT | slashT | dstarT | dslashT | percentT
  | lparenT | rparenT | commaT
  deriving DecidableEq

/-- Identifier character test (letters, digits, underscore). -/
def isIdentCh (c : Char) : Bool := c.isAlpha || c.isDigit || c = '_'

/-- Lex one numeric literal from the head of s (which starts with a digit or
a dot), maximal munch, following the Python number token grammar: integer
part, optional fraction, optional exponent with optional sign.  Returns the
constant and the remaining characters, or Option.none for a malformed literal
(for instance a lone dot, a dangling exponent marker, or a non-zero integer
literal with leading zeros, all SyntaxError in Python). -/
def lexNumber (s : List Char) : Option (PyConst × List Char) :=
  let ip := s.takeWhile isDigitCh
  let r1 := s.drop ip.length
  let fracSplit : Option (List Char) × List Char :=
    match r1 with
    | '.' :: t => (some (t.takeWhile isDigitCh), t.drop (t.takeWhile isDigitCh).length)
    | _ => (Option.none, r1)
  let fp? := fracSplit.1
  let r2 := fracSplit.2
  if ip.isEmpty && (fp? = Option.none || fp? = some []) then Option.none
  else
    let expSplit : Option (Option ℤ) × List Char :=
      match r2 with
      | c :: t =>
          if isExpCh c then
            let signed : ℤ × List Char :=
              match t with
              | '+' :: t2 => (1, t2)
              | '-' :: t2 => (-1, t2)
              | _ => (1, t)
            let eds := signed.2.takeWhile isDigitCh
            if eds.isEmpty then (some Option.none, t)
            else (some (some (signed.1 * digitsToNat eds)), signed.2.drop eds.length)
          else (Option.none, r2)
      | [] => (Option.none, r2)
    match expSplit.1 with
    | some Option.none => Option.none
    | some (some ex) =>
        some (.float ((digitsToNat (ip ++ fp?.getD []) : ℚ)
                / 10 ^ (fp?.getD []).length * (10 : ℚ) ^ ex), expSplit.2)
    | Option.none =>
        match fp? with
        | some fp =>
            some (.float ((digitsToNat (ip ++ fp) : ℚ) / 10 ^ fp.length), r2)
        | Option.none =>
            if ip.head? = some '0' && !ip.all (fun c => c = '0') then Option.none
            else some (.int (digitsToNat ip : ℤ), r2)

/-- Main tokenizer loop over the normalized string, fuel-bounded (fuel at
least the string length suffices; every step consumes a character). -/
def lexLoop : ℕ → List Char → Option (List Tok)
  | 0, _ => Option.none
  | _, [] => some []
  | fuel + 1, c :: rest =>
      if c = ' ' then lexLoop fuel rest
      else if isDigitCh c || c = '.' then
        match lexNumber (c :: rest) with
        | some (v, r) => (lexLoop fuel r).map (fun ts => Tok.num v :: ts)
        | Option.none => Option.none
      else if c.isAlpha || c = '_' then
        let id := (c :: rest).takeWhile isIdentCh
        (lexLoop fuel ((c :: rest).drop id.length)).map (fun ts => Tok.ident id :: ts)
      else if c = '*' then
        match rest with
        | '*' :: r => (lexLoop fuel r).map (fun ts => Tok.dstarT :: ts)
        | _ => (lexLoop fuel rest).map (fun ts => Tok.starT :: ts)
      else if c = '/' then
        match rest with
        | '/' :: r => (lexLoop fuel r).map (fun ts => Tok.dslashT :: ts)
        | _ => (lexLoop fuel rest).map (fun ts => Tok.slashT :: ts)
      else if c = '+' then (lexLoop fuel rest).map (fun ts => Tok.plusT :: ts)
      else if c = '-' then (lexLoop fuel rest).map (fun ts => Tok.minusT :: ts)
      else if c = '%' then (lexLoop fuel rest).map (fun ts => Tok.percentT :: ts)
      else if c = '(' then (lexLoop fuel rest).map (fun ts => Tok.lparenT :: ts)
      else if c = ')' then (lexLoop fuel rest).map (fun ts => Tok.rparenT :: ts)
      else if c = ',' then (lexLoop fuel rest).map (fun ts => Tok.commaT :: ts)
      else Option.none

/-! Recursive-descent parser for the Python expression grammar fragment,
with standard precedence: arith = term ((+ | -) term)*, term = factor
((* | / | // | %) factor)*, factor = (+ | -) factor | power,
power = atom (** factor)?, atom = number | identifier (call)? | ( arith ).
Parenthesized grouping produces no node.  All functions are fuel-bounded;
parseToks supplies ample fuel. -/

mutual

/-- Parse an additive expression. -/
def parseArith : ℕ → List Tok → Option (Expr × List Tok)
  | 0, _ => Option.none
  | fuel + 1, ts =>
      match parseTerm fuel ts with
      | some (e, r) => parseArithRest fuel e r
      | Option.none => Option.none

/-- Left-associative loop over + and -. -/
def parseArithRest : ℕ → Expr → List Tok → Option (Expr × List Tok)
  | 0, _, _ => Option.none
  | fuel + 1, acc, ts =>
      match ts with
      | .plusT :: r =>
          match parseTerm fuel r with
          | some (e, r2) => parseArithRest fuel (.binOp .add acc e) r2
          | Option.none => Option.none
      | .minusT :: r =>
          match parseTerm fuel r with
          | some (e, r2) => parseArithRest fuel (.binOp .sub acc e) r2
          | Option.none => Option.none
      | _ => some (acc, ts)

/-- Parse a multiplicative expression. -/
def parseTerm : ℕ → List Tok → Option (Expr × List Tok)
  | 0, _ => Option.none
  | fuel + 1, ts =>
      match parseFactor fuel ts with
      | some (e, r) => parseTermRest fuel e r
      | Option.none => Option.none

/-- Left-associative loop over *, /, // and %. -/
def parseTermRest : ℕ → Expr → List Tok → Option (Expr × List Tok)
  | 0, _, _ => Option.none
  | fuel + 1, acc, ts =>
      match ts with
      | .starT :: r =>
          match parseFactor fuel r with
          | some (e, r2) => parseTermRest fuel (.binOp .mult acc e) r2
          | Option.none => Option.none
      | .slashT :: r =>
          match parseFactor fuel r with
          | some (e, r2) => parseTermRest fuel (.binOp .div acc e) r2
          | Option.none => Option.none
      | .dslashT :: r =>
          match parseFactor fuel r with
          | some (e, r2) => parseTermRest fuel (.binOp .floorDiv acc e) r2
          | Option.none => Option.none
      | .percentT :: r =>
          match parseFactor fuel r with
          | some (e, r2) => parseTermRest fuel (.binOp .mod acc e) r2
          | Option.none => Option.none
      | _ => some (acc, ts)

/-- Parse a unary expression: unary sign binds looser than ** on its left. -/
def parseFactor : ℕ → List Tok → Option (Expr × List Tok)
  | 0, _ => Option.none
  | fuel + 1, ts =>
      match ts with
      | .plusT :: r =>
          match parseFactor fuel r with
          | some (e, r2) => some (.unaryOp .uAdd e, r2)
          | Option.none => Option.none
      | .minusT :: r =>
          match parseFactor fuel r with
          | some (e, r2) => some (.unaryOp .uSub e, r2)
          | Option.none => Option.none
      | _ => parsePower fuel ts

/-- Parse a power: the exponent is a factor, making ** right-associative and
letting it contain a unary sign. -/
def parsePower : ℕ → List Tok → Option (Expr × List Tok)
  | 0, _ => Option.none
  | fuel + 1, ts =>
      match parseAtom fuel ts with
      | some (e, .dstarT :: r2) =>
          match parseFactor fuel r2 with
          | some (e2, r3) => some (.binOp .pow e e2, r3)
          | Option.none => Option.none
      | some (e, r) => some (e, r)
      | Option.none => Option.none

/-- Parse an atom: a literal, an identifier (optionally called), or a
parenthesized expression. -/
def parseAtom : ℕ → List Tok → Option (Expr × List Tok)
  | 0, _ => Option.none
  | fuel + 1, ts =>
      match ts with
      | .num c :: r => some (.constant c, r)
      | .ident s :: .lparenT :: r =>
          match parseArgs fuel r with
          | some r2 => some (.call (.name s), r2)
          | Option.none => Option.none
      | .ident s :: r => some (.name s, r)
      | .lparenT :: r =>
          match parseArith fuel r with
          | some (e, .rparenT :: r2) => some (e, r2)
          | _ => Option.none
      | _ => Option.none

/-- Parse a call argument list after the opening parenthesis, returning the
tokens after the closing parenthesis.  The arguments themselves are dropped:
_eval rejects the Call node before reading them. -/
def parseArgs : ℕ → List Tok → Option (List Tok)
  | 0, _ => Option.none
  | fuel + 1, ts =>
      match ts with
      | .rparenT :: r => some r
      | _ =>
          match parseArith fuel ts with
          | some (_, .commaT :: r2) => parseArgs fuel r2
          | some (_, .rparenT :: r2) => some r2
          | _ => Option.none

end

/-- Run the parser over a whole token list; anything but a single expression
consuming every token is a SyntaxError, as in ast.parse(mode=eval). -/
def parseToks (ts : List Tok) : Except Err Expr :=
  match parseArith (2 * ts.length + 8) ts with
  | some (e, []) => .ok e
  | _ => .error .parseError

/-- ast.parse(expr, mode=eval) on the normalized string: tokenize then parse;
any failure is the SyntaxError kind (kalkulator.py lines 40-43). -/
def pyParse (s : List Char) : Except Err Expr :=
  match lexLoop (s.length + 1) s with
  | some ts => parseToks ts
  | Option.none => .error .parseError

/-- One character-for-character replace, modelling str.replace with a
single-character replacement. -/
def replaceCh (a b : Char) (s : List Char) : List Char :=
  s.map (fun c => if c = a then b else c)

/-- str.replace of the caret by a double asterisk (a two-character
replacement). -/
def replaceCaret (s : List Char) : List Char :=
  (s.map (fun c => if c = '^' then ['*', '*'] else [c])).flatten

/-- safe_eval (kalkulator.py lines 33-71): normalize the calculator glyphs
(multiplication sign to *, division sign to /, caret to **), parse with
ast.parse, then walk the tree with _eval. -/
def safe_eval (s : List Char) : Except Err PyVal :=
  let s1 := replaceCaret (replaceCh '÷' '/' (replaceCh '×' '*' s))
  match pyParse s1 with
  | .error e => .error e
  | .ok t => evalAst t

/-! The Calculator buffer operations (kalkulator.py lines 135-217).  The
buffer self.expr is the state; each operation maps the old buffer to the new
one.  Methods that only touch the display are not part of the state. -/

/-- The four binary-operator characters of the keypad (membership test
char in the Python string of division sign, multiplication sign, plus,
minus). -/
def isOpChar (c : Char) : Bool := c = '÷' || c = '×' || c = '+' || c = '-'

/-- Test self.expr[-1] in the operator characters (false on an empty
buffer, where the Python code short-circuits before the indexing). -/
def lastIsOp (s : List Char) : Bool :=
  match s.getLast? with
  | some l => isOpChar l
  | Option.none => false

/-- Calculator.append (kalkulator.py lines 135-147): an operator character
replaces a trailing operator character, is dropped on an empty buffer, and is
appended otherwise; every other character is appended. -/
def append (s : List Char) (c : Char) : List Char :=
  if isOpChar c && (s.isEmpty || lastIsOp s) then
    if s.isEmpty then s else s.dropLast ++ [c]
  else s ++ [c]

/-- Calculator.clear (lines 149-151): reset the buffer. -/
def clear (_ : List Char) : List Char := []

/-- Calculator.backspace (lines 153-155): drop the last character
(self.expr[:-1], which is a no-op on an empty buffer). -/
def backspace (s : List Char) : List Char := s.dropLast

/-- Characters of the trailing numeric run scanned by negate and percent:
digits, the decimal point, and the exponent markers (kalkulator.py line 165). -/
def isRunChar (c : Char) : Bool := c.isDigit || c = '.' || c = 'e' || c = 'E'

/-- Length of the leading run of run-characters, used on the reversed buffer
to express the right-to-left index scan of negate and percent. -/
def revRunLen : List Char → ℕ
  | [] => 0
  | c :: r => if isRunChar c then revRunLen r + 1 else 0

/-- Number of trailing run-characters of the buffer: the scan loop of
kalkulator.py lines 164-166 stops at index i with exactly this many
characters after it. -/
def trailingRunLen (s : List Char) : ℕ := revRunLen s.reverse

/-- Calculator.negate (kalkulator.py lines 157-177): find the trailing
numeric run; if it is empty or float() fails on it, return unchanged
(the try/except swallows the error); otherwise negate the parsed value and
splice its rendering back in place of the run. -/
def negate (s : List Char) : List Char :=
  if s.isEmpty then s
  else
    let n := trailingRunLen s
    let num := s.drop (s.length - n)
    if num.isEmpty then s
    else
      match pyFloatOfString num with
      | some v => s.take (s.length - n) ++ pyNumStr (-v)
      | Option.none => s

/-- Calculator.percent (kalkulator.py lines 179-194): same scan as negate,
dividing the parsed value by 100 instead of negating it. -/
def percent (s : List Char) : List Char :=
  if s.isEmpty then s
  else
    let n := trailingRunLen s
    let num := s.drop (s.length - n)
    if num.isEmpty then s
    else
      match pyFloatOfString num with
      | some v => s.take (s.length - n) ++ pyNumStr (v / 100)
      | Option.none => s

/-- The result formatting of Calculator.evaluate (lines 203-206): an integral
float collapses to int, then str.  The NR renderings are placeholders: the
model does not track the text of values it does not track, and no claim
depends on them. -/
def resultStr : PyVal → List Char
  | .int n => intStr n
  | .float q => if q.den = 1 then intStr q.num else floatStr q
  | .floatNR => ['N', 'R']
  | .complexNR => ['N', 'R', 'j']

/-- Calculator.evaluate (kalkulator.py lines 196-210): a no-op on an empty
buffer; otherwise replace the division and multiplication glyphs, run
safe_eval, and on success replace the buffer with the formatted result.  On
any failure the except branch leaves self.expr untouched and flashes the
display; the caught exception kind is returned here as the second component
(Option.none means no failure). -/
def evaluate (s : List Char) : List Char × Option Err :=
  if s.isEmpty then (s, Option.none)
  else
    match safe_eval (replaceCh '×' '*' (replaceCh '÷' '/' s)) with
    | .ok v => (resultStr v, Option.none)
    | .error e => (s, some e)

/-- Calculator._update_display (kalkulator.py lines 212-217) as a pure
formatter: an empty buffer shows 0, and text longer than 30 characters is
cut to its trailing 30 characters (text[-30:]). -/
def formatForDisplay (s : List Char) : List Char :=
  let text := if s.isEmpty then ['0'] else s
  if 30 < text.length then text.drop (text.length - 30) else text

/-- Buffer contents reachable from the initial empty buffer through the six
public operations. -/
inductive Reachable : List Char → Prop
  | init : Reachable []
  | append (s : List Char) (c : Char) : Reachable s → Reachable (Kalkulator.append s c)
  | backspace (s : List Char) : Reachable s → Reachable (Kalkulator.backspace s)
  | clear (s : List Char) : Reachable s → Reachable (Kalkulator.clear s)
  | negate (s : List Char) : Reachable s → Reachable (Kalkulator.negate s)
  | percent (s : List Char) : Reachable s → Reachable (Kalkulator.percent s)
  | evaluate (s : List Char) : Reachable s → Reachable (Kalkulator.evaluate s).1

/-- Buffer contents reachable through every public operation except negate:
append, backspace, clear, percent and evaluate. -/
inductive ReachableNoNegate : List Char → Prop
  | init : ReachableNoNegate []
  | append (s : List Char) (c : Char) :
      ReachableNoNegate s → ReachableNoNegate (Kalkulator.append s c)
  | backspace (s : List Char) :
      ReachableNoNegate s → ReachableNoNegate (Kalkulator.backspace s)
  | clear (s : List Char) : ReachableNoNegate s → ReachableNoNegate (Kalkulator.clear s)
  | percent (s : List Char) : ReachableNoNegate s → ReachableNoNegate (Kalkulator.percent s)
  | evaluate (s : List Char) :
      ReachableNoNegate s → ReachableNoNegate (Kalkulator.evaluate s).1

/-- True when the buffer contains two adjacent binary-operator characters. -/
def hasAdjacentOps : List Char → Bool
  | a :: b :: r => (isOpChar a && isOpChar b) || hasAdjacentOps (b :: r)
  | _ => false

/-! Claim theorems. -/

/-- C4: for an operator character ch among plus, minus, multiplication sign,
division sign: append on an empty buffer is a no-op; append when the last
buffer character is also an operator character replaces that last character;
in every other case append appends ch. -/
theorem c4_append_operator_cases (s : List Char) (c : Char) (hc : isOpChar c = true) :
    (s = [] → append s c = []) ∧
    (lastIsOp s = true → append s c = s.dropLast ++ [c]) ∧
    (s ≠ [] → lastIsOp s = false → append s c = s ++ [c]) := by
  refine ⟨?_, ?_, ?_⟩
  · intro hs; subst hs; simp [append, hc]
  · intro hl
    cases s with
    | nil => simp [lastIsOp] at hl
    | cons a t => simp [append, hc, hl]
  · intro hne hl
    cases s with
    | nil => exact absurd rfl hne
    | cons a t => simp [append, hc, hl]

/-- Witness for C4 at the concrete buffer of one digit and the plus key. -/
theorem c4_witness : append ['1'] '+' = ['1', '+'] :=
  (c4_append_operator_cases ['1'] '+' rfl).2.2 (by decide) rfl

/-- C5 counterexample: starting from the empty buffer, append of plus then
append of minus leaves the buffer empty, not the claimed single minus sign
(an operator character on an empty buffer is dropped, kalkulator.py
lines 143-144). -/
theorem c5_counterexample :
    append (append [] '+') '-' = [] ∧ ([] : List Char) ≠ ['-'] := by
  exact ⟨rfl, by decide⟩

/-- C5 amended: append of plus then minus on an empty buffer leaves the buffer
empty (never the two-character plus-minus string); the collapsing behavior
the claim describes holds from a non-empty buffer, where plus then minus
yields a single trailing minus. -/
theorem c5_empty_operator_noop :
    append (append [] '+') '-' = [] ∧
    append (append ['1'] '+') '-' = ['1', '-'] := by
  exact ⟨rfl, rfl⟩

/-- C2: whenever evaluate fails, the buffer is returned unchanged together
with the specific error kind; on the buffer 5/0 (and its keypad form with the
division glyph) the failure kind is DivisionByZero and the buffer is
preserved. -/
theorem c2_evaluate_preserves_buffer_on_failure :
    (∀ (s : List Char) (e : Err), (evaluate s).2 = some e → (evaluate s).1 = s) ∧
    evaluate ['5', '/', '0'] = (['5', '/', '0'], some Err.divisionByZero) ∧
    evaluate ['5', '÷', '0'] = (['5', '÷', '0'], some Err.divisionByZero) := by
  refine ⟨?_, rfl, rfl⟩
  intro s e h
  cases hs : s.isEmpty with
  | true => simp [evaluate, hs] at h
  | false =>
      simp only [evaluate, hs, Bool.false_eq_true, if_false] at h ⊢
      cases hm : safe_eval (replaceCh '×' '*' (replaceCh '÷' '/' s)) with
      | ok v => rw [hm] at h; exact Option.noConfusion h
      | error e2 => rfl

/-- Witness for C2 at the concrete buffer 5/0. -/
theorem c2_witness : (evaluate ['5', '/', '0']).1 = ['5', '/', '0'] :=
  c2_evaluate_preserves_buffer_on_failure.1 ['5', '/', '0'] Err.divisionByZero rfl

/-- C1 counterexample: the input 1/0+x contains the name reference x, yet
safe_eval fails with the DivisionByZero kind, not DisallowedConstruct: the
operands of the addition are evaluated left to right and the zero division in
the left operand raises before the walker reaches the Name node. -/
theorem c1_kind_counterexample :
    safe_eval ['1', '/', '0', '+', 'x'] = Except.error Err.divisionByZero ∧
    Err.divisionByZero ≠ Err.disallowed := by
  exact ⟨rfl, by decide⟩

/-- C1 amended: a tree containing any construct outside the
Literal/UnaryOp/BinaryOp whitelist never evaluates to a value: _eval always
fails on it (with the DisallowedConstruct kind unless an arithmetic error
raised while evaluating an earlier operand preempts it). -/
theorem c1_disallowed_never_evaluates :
    ∀ t : Expr, containsDisallowed t = true → ∃ e, evalAst t = Except.error e := by
  intro t
  induction t with
  | constant c =>
      cases c with
      | int n => intro h; simp [containsDisallowed] at h
      | float q => intro h; simp [containsDisallowed] at h
      | strLit => intro h; exact ⟨.disallowed, rfl⟩
      | noneLit => intro h; exact ⟨.disallowed, rfl⟩
  | binOp op l r ihl ihr =>
      intro h
      cases hop : allowedBin op with
      | false => exact ⟨.disallowed, by simp [evalAst, hop]⟩
      | true =>
          simp [containsDisallowed, hop] at h
          cases hl : evalAst l with
          | error e => exact ⟨e, by simp [evalAst, hop, hl]⟩
          | ok a =>
              cases h with
              | inl hcl =>
                  obtain ⟨e, he⟩ := ihl hcl
                  rw [hl] at he
                  exact absurd he (by simp)
              | inr hcr =>
                  obtain ⟨e, he⟩ := ihr hcr
                  exact ⟨e, by simp [evalAst, hop, hl, he]⟩
  | unaryOp op x ih =>
      intro h
      cases hop : allowedUn op with
      | false => exact ⟨.disallowed, by simp [evalAst, hop]⟩
      | true =>
          simp [containsDisallowed, hop] at h
          obtain ⟨e, he⟩ := ih h
          exact ⟨e, by simp [evalAst, hop, he]⟩
  | name id => intro h; exact ⟨.disallowed, rfl⟩
  | call fn ih => intro h; exact ⟨.disallowed, rfl⟩
  | otherNode => intro h; exact ⟨.disallowed, rfl⟩

/-- Witness for C1 at the concrete tree of a bare name node. -/
theorem c1_witness : ∃ e, evalAst (Expr.name ['x']) = Except.error e :=
  c1_disallowed_never_evaluates (Expr.name ['x']) rfl

/-- The rational one half, written in normalized constructor form so that
kernel reduction can evaluate with it; it is the value of the Python
literal 0.5. -/
def oneHalf : ℚ := ⟨1, 2, by decide, by decide⟩

/-- C3 counterexample: Pow on the negative base -2 and the non-integral
exponent 0.5 does not fail with InvalidOperation: in Python 3 it succeeds and
returns a complex number. -/
theorem c3_counterexample :
    applyBin BinKind.pow (PyVal.int (-2)) (PyVal.float oneHalf) = Except.ok PyVal.complexNR ∧
    (Except.ok PyVal.complexNR : Except Err PyVal) ≠ Except.error Err.invalidOperation := by
  refine ⟨rfl, ?_⟩
  intro h
  exact Except.noConfusion h

/-- C3 amended: Pow with an exactly negative base and a non-integral float
exponent succeeds with a complex result (no error of any kind); Pow with an
exactly zero base and an exactly negative exponent fails with
DivisionByZero. -/
theorem c3_pow_semantics :
    (∀ (a : PyVal) (q : ℚ), isNegNum a = true → q.den ≠ 1 →
        applyBin .pow a (.float q) = .ok .complexNR) ∧
    (∀ a b : PyVal, isZeroNum a = true → isNegNum b = true →
        applyBin .pow a b = .error .divisionByZero) := by
  constructor
  · intro a q ha hq
    cases a with
    | int n =>
        simp [isNegNum] at ha
        have h0 : ¬ ((n : ℚ) = 0) := by
          simp only [Int.cast_eq_zero]; omega
        have hneg : (n : ℚ) < 0 := by exact_mod_cast ha
        simp [applyBin, pyPow, pyPowQ, qval, h0, hq, hneg]
    | float qb =>
        simp [isNegNum] at ha
        have h0 : ¬ (qb = 0) := by exact ne_of_lt ha
        simp [applyBin, pyPow, pyPowQ, qval, h0, hq, ha]
    | floatNR => simp [isNegNum] at ha
    | complexNR => simp [isNegNum] at ha
  · intro a b ha hb
    cases a with
    | int n =>
        simp [isZeroNum] at ha
        subst ha
        cases b with
        | int m =>
            simp [isNegNum] at hb
            have h2 : ¬ (0 ≤ m) := by omega
            simp [applyBin, pyPow, h2]
        | float qe =>
            simp [isNegNum] at hb
            simp [applyBin, pyPow, pyPowQ, qval, hb]
        | floatNR => simp [isNegNum] at hb
        | complexNR => simp [isNegNum] at hb
    | float qb =>
        simp [isZeroNum] at ha
        subst ha
        cases b with
        | int m =>
            simp [isNegNum] at hb
            have h2 : ((m : ℚ)) < 0 := by exact_mod_cast hb
            simp [applyBin, pyPow, pyPowQ, qval, h2]
        | float qe =>
            simp [isNegNum] at hb
            simp [applyBin, pyPow, pyPowQ, qval, hb]
        | floatNR => simp [isNegNum] at hb
        | complexNR => simp [isNegNum] at hb
    | floatNR => simp [isZeroNum] at ha
    | complexNR => simp [isZeroNum] at ha

/-- Witness for C3 at the concrete pairs (-2, 0.5) and (0, -1). -/
theorem c3_witness :
    applyBin .pow (.int (-2)) (.float oneHalf) = .ok .complexNR ∧
    applyBin .pow (.int 0) (.int (-1)) = .error .divisionByZero :=
  ⟨c3_pow_semantics.1 (.int (-2)) oneHalf (by decide) (by decide),
   c3_pow_semantics.2 (.int 0) (.int (-1)) (by decide) (by decide)⟩

/-- C9: the display formatter shows 0 for an empty buffer, shows text of at
most 30 characters unchanged, and cuts longer text to its trailing 30
characters; in particular a 35-character buffer shows exactly its last 30
characters. -/
theorem c9_format_for_display :
    formatForDisplay [] = ['0'] ∧
    (∀ t : List Char, t ≠ [] → t.length ≤ 30 → formatForDisplay t = t) ∧
    (∀ t : List Char, 30 < t.length → formatForDisplay t = t.drop (t.length - 30)) ∧
    (∀ t : List Char, t.length = 35 → formatForDisplay t = t.drop 5) := by
  refine ⟨rfl, ?_, ?_, ?_⟩
  · intro t ht hlen
    cases t with
    | nil => exact absurd rfl ht
    | cons a r =>
        have h30 : ¬ 30 < (a :: r).length := by omega
        simp only [formatForDisplay, List.isEmpty_cons, Bool.false_eq_true, if_false]
        rw [if_neg h30]
  · intro t hlen
    cases t with
    | nil => simp at hlen
    | cons a r =>
        simp only [formatForDisplay, List.isEmpty_cons, Bool.false_eq_true, if_false]
        rw [if_pos hlen]
  · intro t hlen
    cases t with
    | nil => simp at hlen
    | cons a r =>
        have h30 : 30 < (a :: r).length := by omega
        simp only [formatForDisplay, List.isEmpty_cons, Bool.false_eq_true, if_false]
        rw [if_pos h30, hlen]

/-- Witness for C9 at a concrete 35-character buffer. -/
theorem c9_witness :
    formatForDisplay (List.replicate 35 'a') = (List.replicate 35 'a').drop 5 :=
  c9_format_for_display.2.2.2 (List.replicate 35 'a') (by simp)

/-- The last character of a buffer ending in a is an operator exactly when a
is. -/
theorem lastIsOp_concat (xs : List Char) (a : Char) : lastIsOp (xs ++ [a]) = isOpChar a := by
  simp [lastIsOp, List.getLast?_concat]

/-- Unfolding equation of hasAdjacentOps on two leading characters. -/
theorem hasAdjacentOps_cons_cons (x y : Char) (l : List Char) :
    hasAdjacentOps (x :: y :: l) = ((isOpChar x && isOpChar y) || hasAdjacentOps (y :: l)) := rfl

/-- Appending one character creates an adjacent-operator pair exactly when one
already existed or the old last character and the new one are both
operators. -/
theorem hasAdjacentOps_concat (xs : List Char) (a : Char) :
    hasAdjacentOps (xs ++ [a]) = (hasAdjacentOps xs || (lastIsOp xs && isOpChar a)) := by
  induction xs with
  | nil => simp [hasAdjacentOps, lastIsOp]
  | cons x t ih =>
      cases t with
      | nil => simp [hasAdjacentOps, lastIsOp]
      | cons y t2 =>
          have e1 : (x :: y :: t2) ++ [a] = x :: ((y :: t2) ++ [a]) := rfl
          rw [e1, List.cons_append, hasAdjacentOps_cons_cons, ← List.cons_append, ih,
            hasAdjacentOps_cons_cons]
          have hl : lastIsOp (x :: y :: t2) = lastIsOp (y :: t2) := by simp [lastIsOp]
          rw [hl, Bool.or_assoc]

/-- Dropping the last character preserves freedom from adjacent operators. -/
theorem no_adjacent_dropLast {s : List Char} (h : hasAdjacentOps s = false) :
    hasAdjacentOps s.dropLast = false := by
  rcases List.eq_nil_or_concat s with rfl | ⟨xs, a, rfl⟩
  · exact rfl
  · rw [List.concat_eq_append] at *
    rw [List.dropLast_concat]
    rw [hasAdjacentOps_concat] at h
    exact (Bool.or_eq_false_iff.mp h).1

/-- The append operation preserves freedom from adjacent operators: collapsing
replaces the trailing operator instead of stacking a second one. -/
theorem no_adjacent_append {s : List Char} (c : Char) (h : hasAdjacentOps s = false) :
    hasAdjacentOps (append s c) = false := by
  rcases List.eq_nil_or_concat s with rfl | ⟨xs, a, rfl⟩
  · cases hc : isOpChar c <;> simp [append, hc, hasAdjacentOps]
  · rw [List.concat_eq_append] at *
    have h' := h
    rw [hasAdjacentOps_concat] at h'
    obtain ⟨h1, h2⟩ := Bool.or_eq_false_iff.mp h'
    have hne : (xs ++ [a]).isEmpty = false := by simp
    unfold append
    rw [lastIsOp_concat, hne]
    simp only [Bool.false_or]
    cases hc : isOpChar c with
    | false =>
        simp only [Bool.false_and, Bool.false_eq_true, if_false]
        rw [hasAdjacentOps_concat (xs ++ [a]) c, lastIsOp_concat]
        simp [h, hc]
    | true =>
        simp only [Bool.true_and]
        cases ha : isOpChar a with
        | true =>
            simp only [if_pos, hne, Bool.false_eq_true, if_false]
            rw [List.dropLast_concat, hasAdjacentOps_concat]
            rw [ha, Bool.and_true] at h2
            simp [h1, h2]
        | false =>
            simp only [Bool.false_eq_true, if_false]
            rw [hasAdjacentOps_concat (xs ++ [a]) c, lastIsOp_concat]
            simp [h, ha]

/-- C6 counterexample: typing 1, 2, plus, 5 and pressing the sign toggle are
all public operations, and they produce the reachable buffer 12+-5, which
contains the adjacent binary-operator characters plus and minus. -/
theorem c6_counterexample :
    Reachable ['1', '2', '+', '-', '5'] ∧ hasAdjacentOps ['1', '2', '+', '-', '5'] = true := by
  constructor
  · have h4 : Reachable (negate (append (append (append (append [] '1') '2') '+') '5')) :=
      .negate _ (.append _ '5' (.append _ '+' (.append _ '2' (.append _ '1' .init))))
    have he : negate (append (append (append (append [] '1') '2') '+') '5')
        = ['1', '2', '+', '-', '5'] := by decide
    rwa [he] at h4
  · rfl

/-- Unfolding of negate with its local bindings expanded. -/
theorem negate_eq (s : List Char) :
    negate s =
      if s.isEmpty then s
      else if (s.drop (s.length - trailingRunLen s)).isEmpty then s
      else
        match pyFloatOfString (s.drop (s.length - trailingRunLen s)) with
        | some v => s.take (s.length - trailingRunLen s) ++ pyNumStr (-v)
        | Option.none => s := rfl

/-- Leading run-characters of a concatenation whose first part is all
run-characters. -/
theorem revRunLen_append_all (a b : List Char) (ha : a.all isRunChar = true) :
    revRunLen (a ++ b) = a.length + revRunLen b := by
  induction a with
  | nil => simp [revRunLen]
  | cons c t ih =>
      simp only [List.all_cons, Bool.and_eq_true] at ha
      have e1 : revRunLen ((c :: t) ++ b) = revRunLen (t ++ b) + 1 := by
        show (if isRunChar c then revRunLen (t ++ b) + 1 else 0) = _
        rw [ha.1]
        simp
      rw [e1, ih ha.2, List.length_cons]
      omega

/-- A list headed by a non-run-character has no leading run. -/
theorem revRunLen_not_head (b : List Char)
    (hb : ∀ l, b.head? = some l → isRunChar l = false) : revRunLen b = 0 := by
  cases b with
  | nil => rfl
  | cons c t =>
      have hc := hb c rfl
      simp [revRunLen, hc]

/-- The scan of negate and percent finds exactly the run part of a buffer
split into a prefix not ending in a run-character and an all-run-character
suffix. -/
theorem trailing_decomp (pre run : List Char) (hrun : run.all isRunChar = true)
    (hmax : ∀ l, pre.getLast? = some l → isRunChar l = false) :
    trailingRunLen (pre ++ run) = run.length := by
  unfold trailingRunLen
  rw [List.reverse_append]
  rw [revRunLen_append_all _ _ (by rwa [List.all_reverse])]
  rw [revRunLen_not_head _ (by
    intro l hl
    exact hmax l (by rwa [List.head?_reverse] at hl))]
  simp

/-- Characterization of negate on a buffer split at its trailing numeric run:
a run that float() rejects leaves the buffer unchanged, and a parsed run is
replaced by the rendering of its negation, the prefix untouched. -/
theorem negate_split (pre run : List Char) (hrun : run.all isRunChar = true)
    (hmax : ∀ l, pre.getLast? = some l → isRunChar l = false) :
    (pyFloatOfString run = Option.none → negate (pre ++ run) = pre ++ run) ∧
    (∀ v : ℚ, pyFloatOfString run = some v → negate (pre ++ run) = pre ++ pyNumStr (-v)) := by
  have hlen : trailingRunLen (pre ++ run) = run.length := trailing_decomp pre run hrun hmax
  have hsub : (pre ++ run).length - run.length = pre.length := by simp
  have hdrop : (pre ++ run).drop ((pre ++ run).length - trailingRunLen (pre ++ run)) = run := by
    rw [hlen, hsub, List.drop_left]
  have htake : (pre ++ run).take ((pre ++ run).length - trailingRunLen (pre ++ run)) = pre := by
    rw [hlen, hsub, List.take_left]
  cases he : (pre ++ run).isEmpty with
  | true =>
      have hnil : pre ++ run = [] := List.isEmpty_iff.mp he
      have hrnil : run = [] := (List.append_eq_nil.mp hnil).2
      constructor
      · intro _; rw [negate_eq, he]; simp
      · intro v hv
        rw [hrnil] at hv
        exact absurd hv (by simp [pyFloatOfString, splitFirst, parseMant])
  | false =>
      constructor
      · intro hnone
        rw [negate_eq, he]
        simp only [Bool.false_eq_true, if_false]
        rw [hdrop, hnone]
        cases hre : run.isEmpty <;> simp
      · intro v hv
        have hrne : run.isEmpty = false := by
          cases hq : run.isEmpty with
          | false => rfl
          | true =>
              rw [List.isEmpty_iff.mp hq] at hv
              exact absurd hv (by simp [pyFloatOfString, splitFirst, parseMant])
        rw [negate_eq, he]
        simp only [Bool.false_eq_true, if_false]
        rw [hdrop, htake, hrne, hv]
        simp

/-- C7: negate locates the maximal trailing run of digits, decimal points and
exponent markers; an empty or unparseable run is a no-op, and otherwise the
parsed value is negated, rendered with the integer-collapse rule, and spliced
in place of the run with the prefix untouched; on the buffer 12+5 it yields
12+-5. -/
theorem c7_negate_trailing_run (expr pre run : List Char)
    (hsplit : expr = pre ++ run)
    (hrun : run.all isRunChar = true)
    (hmax : ∀ l, pre.getLast? = some l → isRunChar l = false) :
    ((pyFloatOfString run = Option.none → negate expr = expr) ∧
     (∀ v : ℚ, pyFloatOfString run = some v → negate expr = pre ++ pyNumStr (-v))) ∧
    negate ['1', '2', '+', '5'] = ['1', '2', '+', '-', '5'] := by
  subst hsplit
  exact ⟨negate_split pre run hrun hmax, by decide⟩

/-- Witness for C7 at the concrete buffer 12+5 with its decomposition. -/
theorem c7_witness :
    negate ['1', '2', '+', '5'] = ['1', '2', '+'] ++ pyNumStr (-(5 : ℚ)) :=
  (c7_negate_trailing_run ['1', '2', '+', '5'] ['1', '2', '+'] ['5'] rfl (by decide)
    (by intro l hl; cases hl; rfl)).1.2 5 (by decide)

/-- Classification of a digit character against the scan and parse tests. -/
theorem digit_not_special {c : Char} (h : c.isDigit = true) :
    isExpCh c = false ∧ (c = '.') = false ∧ isRunChar c = true ∧ isDigitCh c = true := by
  refine ⟨?_, ?_, ?_, h⟩
  · unfold isExpCh
    cases he : decide (c = 'e') with
    | true => exact absurd h (by rw [of_decide_eq_true he]; decide)
    | false =>
        cases hE : decide (c = 'E') with
        | true => exact absurd h (by rw [of_decide_eq_true hE]; decide)
        | false => simp [he, hE]
  · cases hd : decide (c = '.') with
    | true => exact absurd h (by rw [of_decide_eq_true hd]; decide)
    | false => simpa using of_decide_eq_false hd
  · simp [isRunChar, h]

/-- splitFirst finds nothing on a list with no matching character. -/
theorem splitFirst_none (p : Char → Bool) (l : List Char)
    (h : ∀ c ∈ l, p c = false) : splitFirst p l = (l, Option.none) := by
  induction l with
  | nil => rfl
  | cons c t ih =>
      have hc := h c (List.mem_cons_self c t)
      simp [splitFirst, hc, ih (fun d hd => h d (List.mem_cons_of_mem c hd))]

/-- Python float() on a non-empty string of plain digits returns its decimal
value. -/
theorem pyFloatOfString_digits (ds : List Char) (h1 : ds ≠ [])
    (h2 : ds.all Char.isDigit = true) :
    pyFloatOfString ds = some ((digitsToNat ds : ℚ)) := by
  have hall : ∀ c ∈ ds, c.isDigit = true := by
    intro c hc
    exact (List.all_eq_true.mp h2 c hc)
  have e1 : splitFirst isExpCh ds = (ds, Option.none) :=
    splitFirst_none _ _ (fun c hc => (digit_not_special (hall c hc)).1)
  have e2 : splitFirst (fun c => c = '.') ds = (ds, Option.none) := by
    apply splitFirst_none
    intro c hc
    have := (digit_not_special (hall c hc)).2.1
    simpa using this
  have hne : ds.isEmpty = false := by
    cases ds with
    | nil => exact absurd rfl h1
    | cons a t => rfl
  have hdig : ds.all isDigitCh = true := h2
  simp only [pyFloatOfString, e1, parseMant, e2, hne, Bool.false_eq_true, if_false, hdig,
    if_true]

/-- The character rendered for one decimal digit is a digit character with
that value. -/
theorem digit_char_spec (r : ℕ) (h : r < 10) :
    (Char.ofNat (48 + r)).isDigit = true ∧ digitVal (Char.ofNat (48 + r)) = r := by
  interval_cases r <;> exact ⟨rfl, rfl⟩

/-- Reading one more trailing digit multiplies the value by ten and adds the
digit. -/
theorem digitsToNat_concat (a : List Char) (c : Char) :
    digitsToNat (a ++ [c]) = 10 * digitsToNat a + digitVal c := by
  unfold digitsToNat
  rw [List.foldl_append]
  rfl

/-- The digit renderer produces digit characters whose value reads back to the
rendered number. -/
theorem natStrAux_spec : ∀ fuel n : ℕ, n ≤ fuel →
    (natStrAux fuel n).all Char.isDigit = true ∧ digitsToNat (natStrAux fuel n) = n := by
  intro fuel
  induction fuel with
  | zero =>
      intro n hn
      have : n = 0 := by omega
      subst this
      exact ⟨rfl, rfl⟩
  | succ fuel ih =>
      intro n hn
      cases n with
      | zero => exact ⟨rfl, rfl⟩
      | succ m =>
          have hdiv : (m + 1) / 10 ≤ fuel := by
            have := Nat.div_lt_self (Nat.succ_pos m) (by omega : 1 < 10)
            omega
          obtain ⟨iha, ihv⟩ := ih ((m + 1) / 10) hdiv
          have hmod : (m + 1) % 10 < 10 := Nat.mod_lt _ (by omega)
          obtain ⟨hcd, hcv⟩ := digit_char_spec ((m + 1) % 10) hmod
          have e1 : natStrAux (fuel + 1) (m + 1)
              = natStrAux fuel ((m + 1) / 10) ++ [Char.ofNat (48 + (m + 1) % 10)] := rfl
          constructor
          · rw [e1, List.all_append]
            simp [iha, hcd]
          · rw [e1, digitsToNat_concat, ihv, hcv]
            omega

/-- Python str on a natural number: all digits, round-trips, non-empty. -/
theorem natStr_spec (n : ℕ) :
    (natStr n).all Char.isDigit = true ∧ digitsToNat (natStr n) = n ∧ natStr n ≠ [] := by
  unfold natStr
  cases hn : n with
  | zero => exact ⟨rfl, rfl, by decide⟩
  | succ m =>
      simp only [Nat.succ_ne_zero, if_false]
      obtain ⟨ha, hv⟩ := natStrAux_spec (m + 1) (m + 1) (Nat.le_refl _)
      refine ⟨ha, hv, ?_⟩
      intro hc
      rw [hc] at hv
      have h0 : digitsToNat [] = 0 := rfl
      omega

/-- Rendering the negation of a non-zero natural value: the integer-collapse
branch fires and produces a minus sign before the digits. -/
theorem pyNumStr_neg_nat (n : ℕ) (hn : n ≠ 0) : pyNumStr (-(n : ℚ)) = '-' :: natStr n := by
  have he : (-(n : ℚ)) = (((-(n : ℤ)) : ℤ) : ℚ) := by push_cast; ring
  rw [pyNumStr, he, Rat.den_intCast, if_pos rfl, Rat.num_intCast]
  unfold intStr
  rw [if_pos (by omega : (-(n : ℤ)) < 0)]
  congr 1
  congr 1
  omega

/-- C10 counterexample: the buffer minus-zero consists of a leading minus and
a non-empty digit run, yet negate leaves it unchanged: the rendered negation
of zero is the single digit zero, so the result keeps one leading minus, not
two, and applying negate twice is the identity here. -/
theorem c10_counterexample :
    negate ['-', '0'] = ['-', '0'] ∧ negate (negate ['-', '0']) = ['-', '0'] ∧
    (negate ['-', '0']).take 2 ≠ ['-', '-'] := by decide

/-- C10 amended: on a buffer of a leading minus followed by a non-empty digit
run of non-zero value, negate keeps the minus out of the scanned run and
splices in the rendered negation, producing two leading minus signs; in the
same situation negate twice starting from the bare digit run produces the
double-minus buffer rather than the original, so negate is not an
involution. -/
theorem c10_negate_double_minus (ds : List Char) (h1 : ds ≠ [])
    (h2 : ds.all Char.isDigit = true) (h3 : digitsToNat ds ≠ 0) :
    negate ('-' :: ds) = '-' :: '-' :: natStr (digitsToNat ds) ∧
    negate (negate ds) = '-' :: '-' :: natStr (digitsToNat ds) ∧
    negate (negate ds) ≠ ds := by
  have hrun : ds.all isRunChar = true := by
    rw [List.all_eq_true] at h2 ⊢
    intro c hc
    exact (digit_not_special (h2 c hc)).2.2.1
  have hfloat := pyFloatOfString_digits ds h1 h2
  have p1 : negate ('-' :: ds) = '-' :: '-' :: natStr (digitsToNat ds) := by
    have hs := (negate_split ['-'] ds hrun (by intro l hl; cases hl; rfl)).2
      (digitsToNat ds : ℚ) hfloat
    rw [show (['-'] ++ ds) = '-' :: ds from rfl] at hs
    rw [hs, pyNumStr_neg_nat _ h3]
    rfl
  have p2 : negate ds = '-' :: natStr (digitsToNat ds) := by
    have hs := (negate_split [] ds hrun (by intro l hl; cases hl)).2
      (digitsToNat ds : ℚ) hfloat
    rw [List.nil_append] at hs
    rw [hs, pyNumStr_neg_nat _ h3]
    rfl
  obtain ⟨hna, hnv, hne⟩ := natStr_spec (digitsToNat ds)
  have p3 : negate ('-' :: natStr (digitsToNat ds)) = '-' :: '-' :: natStr (digitsToNat ds) := by
    have hrun2 : (natStr (digitsToNat ds)).all isRunChar = true := by
      rw [List.all_eq_true] at hna ⊢
      intro c hc
      exact (digit_not_special (hna c hc)).2.2.1
    have hfloat2 := pyFloatOfString_digits _ hne hna
    have hs := (negate_split ['-'] _ hrun2 (by intro l hl; cases hl; rfl)).2 _ hfloat2
    rw [show (['-'] ++ natStr (digitsToNat ds)) = '-' :: natStr (digitsToNat ds) from rfl] at hs
    rw [hs, hnv, pyNumStr_neg_nat _ h3]
    rfl
  refine ⟨p1, by rw [p2, p3], ?_⟩
  rw [p2, p3]
  intro hc
  rw [← hc] at h2
  have hbad : ('-').isDigit = true := List.all_eq_true.mp h2 '-' (by simp)
  exact absurd hbad (by decide)

/-- Witness for C10 at the concrete buffers minus-five and five. -/
theorem c10_witness :
    negate ['-', '5'] = ['-', '-', '5'] ∧ negate (negate ['5']) = ['-', '-', '5'] ∧
    negate (negate ['5']) ≠ ['5'] := by
  obtain ⟨a, b, c⟩ := c10_negate_double_minus ['5'] (by decide) (by decide) (by decide)
  have e : '-' :: '-' :: natStr (digitsToNat ['5']) = ['-', '-', '5'] := rfl
  exact ⟨a.trans e, b.trans e, c⟩

/-- Bounds of the floored integer remainder for a negative divisor, from the
constructor definition of Int.fmod. -/
theorem fmod_neg_bounds (a : ℤ) {b : ℤ} (hb : b < 0) :
    b < a.fmod b ∧ a.fmod b ≤ 0 := by
  obtain ⟨n, rfl⟩ : ∃ n, b = Int.negSucc n := by
    rcases b with (m | n)
    · exact absurd hb (by rw [Int.ofNat_eq_coe]; omega)
    · exact ⟨n, rfl⟩
  rcases a with (m | m)
  · cases m with
    | zero =>
        have e : Int.fmod (Int.ofNat 0) (Int.negSucc n) = 0 := rfl
        rw [e, Int.negSucc_eq]
        omega
    | succ m =>
        have e : Int.fmod (Int.ofNat (m + 1)) (Int.negSucc n)
            = Int.subNatNat (m % (n + 1)) n := rfl
        have hm : m % (n + 1) < n + 1 := Nat.mod_lt _ (by omega)
        rw [e, Int.subNatNat_eq_coe, Int.negSucc_eq]
        omega
  · have e : Int.fmod (Int.negSucc m) (Int.negSucc n)
        = -(Int.ofNat ((m + 1) % (n + 1))) := rfl
    have hm : (m + 1) % (n + 1) < n + 1 := Nat.mod_lt _ (by omega)
    rw [e, Int.negSucc_eq, Int.ofNat_eq_coe]
    omega

/-- A remainder bounded between zero and the divisor is zero or has the
divisor's sign. -/
theorem sign_from_bounds (r b : ℚ) (hb : b ≠ 0)
    (h1 : 0 < b → 0 ≤ r ∧ r < b) (h2 : b < 0 → b < r ∧ r ≤ 0) :
    r = 0 ∨ (0 < r ↔ 0 < b) := by
  by_cases hr : r = 0
  · exact Or.inl hr
  · right
    rcases lt_or_gt_of_ne hb with hneg | hpos
    · have hb2 := h2 hneg
      constructor
      · intro h0r; linarith [hb2.2]
      · intro h0b; linarith
    · have hb1 := h1 hpos
      constructor
      · intro _; exact hpos
      · intro _
        rcases lt_or_eq_of_le hb1.1 with h | h
        · exact h
        · exact absurd h.symm hr

/-- The floored rational remainder is the divisor times the fractional part of
the quotient. -/
theorem qfmod_fract (a b : ℚ) (hb : b ≠ 0) : qfmod a b = b * Int.fract (a / b) := by
  unfold qfmod Int.fract
  rw [mul_sub, mul_div_cancel₀ a hb]

/-- Bounds of the floored rational remainder on each side of zero. -/
theorem qfmod_bounds (a b : ℚ) (hb : b ≠ 0) :
    (0 < b → 0 ≤ qfmod a b ∧ qfmod a b < b) ∧
    (b < 0 → b < qfmod a b ∧ qfmod a b ≤ 0) := by
  have key := qfmod_fract a b hb
  have hf1 : 0 ≤ Int.fract (a / b) := Int.fract_nonneg _
  have hf2 : Int.fract (a / b) < 1 := Int.fract_lt_one _
  constructor
  · intro hpos
    constructor
    · rw [key]; positivity
    · rw [key]; nlinarith
  · intro hneg
    constructor
    · rw [key]; nlinarith
    · rw [key]; exact mul_nonpos_of_nonpos_of_nonneg (le_of_lt hneg) hf1

/-- The floored remainder together with its bounds and sign rule. -/
theorem qfmod_package (qa qb : ℚ) (hqb : qb ≠ 0) :
    (0 < qb → 0 ≤ qfmod qa qb ∧ qfmod qa qb < qb) ∧
    (qb < 0 → qb < qfmod qa qb ∧ qfmod qa qb ≤ 0) ∧
    (qfmod qa qb = 0 ∨ (0 < qfmod qa qb ↔ 0 < qb)) :=
  ⟨(qfmod_bounds qa qb hqb).1, (qfmod_bounds qa qb hqb).2,
    sign_from_bounds _ _ hqb (qfmod_bounds qa qb hqb).1 (qfmod_bounds qa qb hqb).2⟩

/-- C8: on exact numeric operands with a non-zero divisor, Mod succeeds with a
numeric remainder r such that r differs from the dividend by an integer
multiple of the divisor, r lies between zero (inclusive) and the divisor, and
the sign of r is zero or follows the divisor's sign (floored modulo); with a
zero divisor Mod fails with DivisionByZero. -/
theorem c8_mod_floored_semantics (a b : PyVal) (ha : isNumVal a = true) (hb : isNumVal b = true) :
    (qval b ≠ 0 →
      ∃ (r : PyVal) (k : ℤ), applyBin .mod a b = .ok r ∧ isNumVal r = true ∧
        qval r = qval a - qval b * k ∧
        (0 < qval b → 0 ≤ qval r ∧ qval r < qval b) ∧
        (qval b < 0 → qval b < qval r ∧ qval r ≤ 0) ∧
        (qval r = 0 ∨ (0 < qval r ↔ 0 < qval b))) ∧
    (qval b = 0 → applyBin .mod a b = .error .divisionByZero) := by
  cases a with
  | floatNR => simp [isNumVal] at ha
  | complexNR => simp [isNumVal] at ha
  | int x =>
      cases b with
      | floatNR => simp [isNumVal] at hb
      | complexNR => simp [isNumVal] at hb
      | int y =>
          constructor
          · intro hqb
            have hy : y ≠ 0 := by
              intro h0; rw [h0] at hqb; exact hqb (by simp [qval])
            have hbounds_pos : 0 < (y : ℚ) → 0 ≤ ((x.fmod y : ℤ) : ℚ) ∧
                ((x.fmod y : ℤ) : ℚ) < (y : ℚ) := by
              intro h0
              have hy0 : 0 < y := by exact_mod_cast h0
              constructor
              · exact_mod_cast Int.fmod_nonneg' x hy0
              · exact_mod_cast Int.fmod_lt_of_pos x hy0
            have hbounds_neg : (y : ℚ) < 0 → (y : ℚ) < ((x.fmod y : ℤ) : ℚ) ∧
                ((x.fmod y : ℤ) : ℚ) ≤ 0 := by
              intro h0
              have hy0 : y < 0 := by exact_mod_cast h0
              obtain ⟨u, v⟩ := fmod_neg_bounds x hy0
              constructor
              · exact_mod_cast u
              · exact_mod_cast v
            refine ⟨.int (x.fmod y), x.fdiv y, ?_, rfl, ?_, ?_, ?_, ?_⟩
            · simp [applyBin, pyMod, hy]
            · show ((x.fmod y : ℤ) : ℚ) = (x : ℚ) - (y : ℚ) * ((x.fdiv y : ℤ) : ℚ)
              rw [Int.fmod_def]
              push_cast
              ring
            · exact hbounds_pos
            · exact hbounds_neg
            · exact sign_from_bounds _ _ (by simpa [qval] using hqb) hbounds_pos hbounds_neg
          · intro hqb0
            have hy : y = 0 := by
              have h2 : ((y : ℤ) : ℚ) = 0 := by simpa [qval] using hqb0
              exact_mod_cast h2
            simp [applyBin, pyMod, hy]
      | float q =>
          constructor
          · intro hqb
            have hq : q ≠ 0 := by simpa [qval] using hqb
            obtain ⟨bp, bn, bs⟩ := qfmod_package (x : ℚ) q hq
            refine ⟨.float (qfmod (x : ℚ) q), ⌊(x : ℚ) / q⌋, ?_, rfl, ?_, bp, bn, bs⟩
            · simp [applyBin, pyMod, isZeroNum, hq, qval]
            · show qfmod (x : ℚ) q = (x : ℚ) - q * (⌊(x : ℚ) / q⌋ : ℚ)
              rfl
          · intro hqb0
            have hq : q = 0 := by simpa [qval] using hqb0
            simp [applyBin, pyMod, isZeroNum, hq]
  | float p =>
      cases b with
      | floatNR => simp [isNumVal] at hb
      | complexNR => simp [isNumVal] at hb
      | int y =>
          constructor
          · intro hqb
            have hy : y ≠ 0 := by
              intro h0; rw [h0] at hqb; exact hqb (by simp [qval])
            have hyq : ((y : ℤ) : ℚ) ≠ 0 := by simpa [qval] using hqb
            obtain ⟨bp, bn, bs⟩ := qfmod_package p ((y : ℤ) : ℚ) hyq
            refine ⟨.float (qfmod p (y : ℚ)), ⌊p / (y : ℚ)⌋, ?_, rfl, ?_, bp, bn, bs⟩
            · simp [applyBin, pyMod, isZeroNum, hy, qval]
            · show qfmod p (y : ℚ) = p - (y : ℚ) * (⌊p / (y : ℚ)⌋ : ℚ)
              rfl
          · intro hqb0
            have hy : y = 0 := by
              have h2 : ((y : ℤ) : ℚ) = 0 := by simpa [qval] using hqb0
              exact_mod_cast h2
            simp [applyBin, pyMod, isZeroNum, hy]
      | float q =>
          constructor
          · intro hqb
            have hq : q ≠ 0 := by simpa [qval] using hqb
            obtain ⟨bp, bn, bs⟩ := qfmod_package p q hq
            refine ⟨.float (qfmod p q), ⌊p / q⌋, ?_, rfl, ?_, bp, bn, bs⟩
            · simp [applyBin, pyMod, isZeroNum, hq, qval]
            · show qfmod p q = p - q * (⌊p / q⌋ : ℚ)
              rfl
          · intro hqb0
            have hq : q = 0 := by simpa [qval] using hqb0
            simp [applyBin, pyMod, isZeroNum, hq]

/-- Witness for C8: the floored examples -7 mod 3 = 2 and 7 mod -3 = -2
(signs following the divisor), and the zero-divisor failure through the
theorem at the pair (5, 0). -/
theorem c8_witness :
    applyBin .mod (.int (-7)) (.int 3) = .ok (.int 2) ∧
    applyBin .mod (.int 7) (.int (-3)) = .ok (.int (-2)) ∧
    applyBin .mod (.int 5) (.int 0) = .error .divisionByZero := by
  refine ⟨rfl, rfl, ?_⟩
  exact (c8_mod_floored_semantics (.int 5) (.int 0) rfl rfl).2 (by simp [qval])

/-- A digit character is not one of the four operator characters. -/
theorem digit_not_op {c : Char} (h : c.isDigit = true) : isOpChar c = false := by
  unfold isOpChar
  cases h1 : decide (c = '÷') with
  | true => exact absurd h (by rw [of_decide_eq_true h1]; decide)
  | false =>
      cases h2 : decide (c = '×') with
      | true => exact absurd h (by rw [of_decide_eq_true h2]; decide)
      | false =>
          cases h3 : decide (c = '+') with
          | true => exact absurd h (by rw [of_decide_eq_true h3]; decide)
          | false =>
              cases h4 : decide (c = '-') with
              | true => exact absurd h (by rw [of_decide_eq_true h4]; decide)
              | false => simp [h1, h2, h3, h4]

/-- A string of digits contains no operator characters. -/
theorem all_digits_no_ops (l : List Char) (h : l.all Char.isDigit = true) :
    l.all (fun c => !isOpChar c) = true := by
  rw [List.all_eq_true] at h ⊢
  intro c hc
  simp [digit_not_op (h c hc)]

/-- A string without operator characters has no adjacent-operator pair. -/
theorem no_ops_no_adjacent (b : List Char)
    (hb : b.all (fun c => !isOpChar c) = true) : hasAdjacentOps b = false := by
  induction b with
  | nil => rfl
  | cons c t ih =>
      cases t with
      | nil => rfl
      | cons d r =>
          simp only [List.all_cons, Bool.and_eq_true, Bool.not_eq_true'] at hb
          rw [hasAdjacentOps_cons_cons, hb.1]
          simp only [Bool.false_and, Bool.false_or]
          apply ih
          simp only [List.all_cons, Bool.and_eq_true, Bool.not_eq_true']
          exact hb.2

/-- Prepending any single character to a string without operator characters
creates no adjacent-operator pair. -/
theorem cons_no_ops_no_adjacent (c : Char) (b : List Char)
    (hb : b.all (fun c => !isOpChar c) = true) : hasAdjacentOps (c :: b) = false := by
  cases b with
  | nil => rfl
  | cons d r =>
      simp only [List.all_cons, Bool.and_eq_true, Bool.not_eq_true'] at hb
      rw [hasAdjacentOps_cons_cons, hb.1]
      simp only [Bool.and_false, Bool.false_or]
      apply no_ops_no_adjacent
      simp only [List.all_cons, Bool.and_eq_true, Bool.not_eq_true']
      exact hb

/-- Appending a string without operator characters to a buffer free of
adjacent operators keeps it free of adjacent operators. -/
theorem no_adjacent_append_no_ops (a b : List Char) (ha : hasAdjacentOps a = false)
    (hb : b.all (fun c => !isOpChar c) = true) : hasAdjacentOps (a ++ b) = false := by
  induction a with
  | nil => exact no_ops_no_adjacent b hb
  | cons x t ih =>
      cases t with
      | nil => exact cons_no_ops_no_adjacent x b hb
      | cons y t2 =>
          rw [hasAdjacentOps_cons_cons] at ha
          obtain ⟨ha1, ha2⟩ := Bool.or_eq_false_iff.mp ha
          have e1 : (x :: y :: t2) ++ b = x :: ((y :: t2) ++ b) := rfl
          rw [e1, List.cons_append, hasAdjacentOps_cons_cons, ← List.cons_append, ih ha2, ha1]
          rfl

/-- A prefix of a buffer free of adjacent operators is free of adjacent
operators. -/
theorem hasAdjacentOps_take (s : List Char) (h : hasAdjacentOps s = false) :
    ∀ k : ℕ, hasAdjacentOps (s.take k) = false := by
  induction s with
  | nil => intro k; simp [hasAdjacentOps]
  | cons x t ih =>
      intro k
      cases k with
      | zero => rfl
      | succ k2 =>
          cases t with
          | nil => cases k2 <;> rfl
          | cons y t2 =>
              rw [hasAdjacentOps_cons_cons] at h
              obtain ⟨h1, h2⟩ := Bool.or_eq_false_iff.mp h
              cases k2 with
              | zero => rfl
              | succ k3 =>
                  have e1 : (x :: y :: t2).take (k3 + 2) = x :: y :: t2.take k3 := rfl
                  rw [e1, hasAdjacentOps_cons_cons, h1]
                  simp only [Bool.false_or]
                  have := ih h2 (k3 + 1)
                  simpa using this

/-- The mantissa parser only produces non-negative values: its grammar has no
sign. -/
theorem parseMant_nonneg (l : List Char) (v : ℚ) (h : parseMant l = some v) : 0 ≤ v := by
  simp only [parseMant] at h
  split at h
  · split at h
    · exact absurd h (by simp)
    · split at h
      · have hv : ((digitsToNat _ : ℚ)) = v := Option.some.inj h
        rw [← hv]
        positivity
      · exact absurd h (by simp)
  · split at h
    · exact absurd h (by simp)
    · split at h
      · have hv : ((digitsToNat _ : ℚ) / 10 ^ _) = v := Option.some.inj h
        rw [← hv]
        positivity
      · exact absurd h (by simp)

/-- Values parsed from the trailing numeric run are non-negative: the run
character set has no sign, and the exponent only scales by a positive power
of ten. -/
theorem pyFloatOfString_nonneg (l : List Char) (v : ℚ)
    (h : pyFloatOfString l = some v) : 0 ≤ v := by
  simp only [pyFloatOfString] at h
  split at h
  · exact parseMant_nonneg _ _ h
  · split at h
    · rename_i m ex hm hex
      have hv : m * (10 : ℚ) ^ ex = v := Option.some.inj h
      rw [← hv]
      have hmn : 0 ≤ m := parseMant_nonneg _ _ hm
      positivity
    · exact absurd h (by simp)

/-- The digit rendering of a natural number has no operator characters. -/
theorem natStr_no_ops (n : ℕ) : (natStr n).all (fun c => !isOpChar c) = true :=
  all_digits_no_ops _ (natStr_spec n).1

/-- Zero-padding keeps a digit string all digits. -/
theorem padTo_all_digits (k : ℕ) (ds : List Char) (h : ds.all Char.isDigit = true) :
    (padTo k ds).all Char.isDigit = true := by
  unfold padTo
  rw [List.all_append, h]
  simp only [Bool.and_true]
  rw [List.all_eq_true]
  intro c hc
  rw [List.eq_of_mem_replicate hc]
  rfl

/-- Taking a prefix preserves freedom from operator characters. -/
theorem all_no_ops_take (l : List Char) (k : ℕ)
    (h : l.all (fun c => !isOpChar c) = true) :
    (l.take k).all (fun c => !isOpChar c) = true := by
  rw [List.all_eq_true] at h ⊢
  intro c hc
  exact h c (List.mem_of_mem_take hc)

/-- Dropping a prefix preserves freedom from operator characters. -/
theorem all_no_ops_drop (l : List Char) (k : ℕ)
    (h : l.all (fun c => !isOpChar c) = true) :
    (l.drop k).all (fun c => !isOpChar c) = true := by
  rw [List.all_eq_true] at h ⊢
  intro c hc
  exact h c (List.mem_of_mem_drop hc)

/-- The float renderer is an optional leading minus sign followed by a body
free of operator characters (digits, decimal point, and the totality-default
slash). -/
theorem floatStr_decomp (q : ℚ) :
    ∃ body : List Char,
      floatStr q = (if q < 0 then ['-'] else []) ++ body ∧
      body.all (fun c => !isOpChar c) = true := by
  simp only [floatStr]
  cases hf : findPow10 q.den with
  | none =>
      refine ⟨natStr q.num.natAbs ++ (['/'] ++ natStr q.den), ?_, ?_⟩
      · show (if q < 0 then ['-'] else []) ++ natStr q.num.natAbs ++ ['/'] ++ natStr q.den = _
        simp only [List.append_assoc]
      · simp only [List.all_append]
        rw [natStr_no_ops, natStr_no_ops]
        decide
  | some k =>
      cases k with
      | zero =>
          refine ⟨natStr q.num.natAbs ++ ['.', '0'], ?_, ?_⟩
          · show (if q < 0 then ['-'] else []) ++ natStr q.num.natAbs ++ ['.', '0'] = _
            simp only [List.append_assoc]
          · simp only [List.all_append]
            rw [natStr_no_ops]
            decide
      | succ k2 =>
          set ds := padTo (k2 + 1 + 1) (natStr (q.num.natAbs * 10 ^ (k2 + 1) / q.den)) with hds0
          have hdsall : ds.all (fun c => !isOpChar c) = true :=
            all_digits_no_ops _ (padTo_all_digits _ _ (natStr_spec _).1)
          refine ⟨ds.take (ds.length - (k2 + 1)) ++ (['.'] ++ ds.drop (ds.length - (k2 + 1))),
            ?_, ?_⟩
          · show (if q < 0 then ['-'] else []) ++ ds.take (ds.length - (k2 + 1)) ++ ['.']
                ++ ds.drop (ds.length - (k2 + 1)) = _
            simp only [List.append_assoc]
          · simp only [List.all_append]
            rw [all_no_ops_take _ _ hdsall, all_no_ops_drop _ _ hdsall]
            decide

/-- The rendering of a non-negative value, as spliced by percent, has no
operator characters at all (no sign appears). -/
theorem pyNumStr_nonneg_no_ops (q : ℚ) (hq : 0 ≤ q) :
    (pyNumStr q).all (fun c => !isOpChar c) = true := by
  unfold pyNumStr
  cases hd : decide (q.den = 1) with
  | true =>
      rw [if_pos (of_decide_eq_true hd)]
      unfold intStr
      rw [if_neg (by have := Rat.num_nonneg.mpr hq; omega)]
      exact natStr_no_ops _
  | false =>
      rw [if_neg (of_decide_eq_false hd)]
      obtain ⟨body, hb1, hb2⟩ := floatStr_decomp q
      rw [hb1, if_neg (not_lt.mpr hq), List.nil_append]
      exact hb2

/-- The formatted result string of evaluate never contains two adjacent
operator characters: a minus sign can only occur leading, directly followed
by a digit. -/
theorem resultStr_no_adjacent (v : PyVal) : hasAdjacentOps (resultStr v) = false := by
  cases v with
  | floatNR => rfl
  | complexNR => rfl
  | int n =>
      show hasAdjacentOps (intStr n) = false
      unfold intStr
      by_cases hn : n < 0
      · rw [if_pos hn]
        exact cons_no_ops_no_adjacent _ _ (natStr_no_ops _)
      · rw [if_neg hn]
        exact no_ops_no_adjacent _ (natStr_no_ops _)
  | float q =>
      show hasAdjacentOps (if q.den = 1 then intStr q.num else floatStr q) = false
      by_cases hd : q.den = 1
      · rw [if_pos hd]
        unfold intStr
        by_cases hn : q.num < 0
        · rw [if_pos hn]
          exact cons_no_ops_no_adjacent _ _ (natStr_no_ops _)
        · rw [if_neg hn]
          exact no_ops_no_adjacent _ (natStr_no_ops _)
      · rw [if_neg hd]
        obtain ⟨body, hb1, hb2⟩ := floatStr_decomp q
        rw [hb1]
        by_cases hqn : q < 0
        · rw [if_pos hqn]
          exact cons_no_ops_no_adjacent _ _ hb2
        · rw [if_neg hqn, List.nil_append]
          exact no_ops_no_adjacent _ hb2

/-- Unfolding of percent with its local bindings expanded. -/
theorem percent_eq (s : List Char) :
    percent s =
      if s.isEmpty then s
      else if (s.drop (s.length - trailingRunLen s)).isEmpty then s
      else
        match pyFloatOfString (s.drop (s.length - trailingRunLen s)) with
        | some v => s.take (s.length - trailingRunLen s) ++ pyNumStr (v / 100)
        | Option.none => s := rfl

/-- The percent operation preserves freedom from adjacent operators: the run
it replaces parses to a non-negative value, whose rendering divided by 100
contains no operator character. -/
theorem no_adjacent_percent (s : List Char) (h : hasAdjacentOps s = false) :
    hasAdjacentOps (percent s) = false := by
  rw [percent_eq]
  cases he : s.isEmpty with
  | true => simpa [he] using h
  | false =>
      simp only [Bool.false_eq_true, if_false]
      cases hre : (s.drop (s.length - trailingRunLen s)).isEmpty with
      | true => simpa using h
      | false =>
          simp only [Bool.false_eq_true, if_false]
          cases hp : pyFloatOfString (s.drop (s.length - trailingRunLen s)) with
          | none => exact h
          | some v =>
              have hv : 0 ≤ v := pyFloatOfString_nonneg _ _ hp
              exact no_adjacent_append_no_ops _ _
                (hasAdjacentOps_take s h _)
                (pyNumStr_nonneg_no_ops _ (by positivity))

/-- The evaluate operation preserves freedom from adjacent operators, on
failure by leaving the buffer unchanged and on success because the formatted
result has no adjacent operator characters. -/
theorem no_adjacent_evaluate (s : List Char) (h : hasAdjacentOps s = false) :
    hasAdjacentOps (evaluate s).1 = false := by
  unfold evaluate
  cases he : s.isEmpty with
  | true => simpa using h
  | false =>
      simp only [Bool.false_eq_true, if_false]
      cases hm : safe_eval (replaceCh '×' '*' (replaceCh '÷' '/' s)) with
      | ok v => exact resultStr_no_adjacent v
      | error e => exact h

/-- C6 amended: every buffer reachable through the public operations append,
backspace, clear, percent and evaluate, that is through every operation
except negate, is free of adjacent binary-operator characters (and hence
ends in at most one pending operator character); only negate can break the
property, by splicing in the rendering of a negative number after an
operator. -/
theorem c6_no_adjacent_operators_without_negate :
    ∀ s : List Char, ReachableNoNegate s → hasAdjacentOps s = false := by
  intro s h
  induction h with
  | init => rfl
  | append s c _ ih => exact no_adjacent_append c ih
  | backspace s _ ih => exact no_adjacent_dropLast ih
  | clear s _ _ => rfl
  | percent s _ ih => exact no_adjacent_percent s ih
  | evaluate s _ ih => exact no_adjacent_evaluate s ih

/-- Witness for C6 at the concrete reachable buffer of a digit and a plus. -/
theorem c6_witness : hasAdjacentOps ['1', '+'] = false := by
  have h1 : ReachableNoNegate (append [] '1') := .append [] '1' .init
  have e1 : append [] '1' = ['1'] := rfl
  rw [e1] at h1
  have h2 : ReachableNoNegate (append ['1'] '+') := .append ['1'] '+' h1
  have e2 : append ['1'] '+' = ['1', '+'] := rfl
  rw [e2] at h2
  exact c6_no_adjacent_operators_without_negate _ h2

end Kalkulator
